import Mathlib

/-!
Verification of the Monte Carlo Elo trajectory simulator (`montecarlo.py`).

The Python source is shallowly embedded below.  Floating-point arithmetic is
modelled by real arithmetic; the stream of uniform random values that numpy
produces is modelled by explicit function parameters supplying one value per
draw; a raised exception is modelled by an `Option` result being `none`.

Correspondence to the source:
* `draw_probability`          — module-level `draw_probability`
* `calculate_win_probability` — `ChessEloPredictor.calculate_win_probability`
* `simulate_match`            — `ChessEloPredictor.simulate_match` (the single
  `np.random.random()` draw is the explicit argument `u`)
* `get_latest_ratings`        — `ChessEloPredictor.get_latest_ratings`
* `top_players`, `opponent_names`, `rating_diffs`, `raw_weights`,
  `norm_weights`, `categorical`, `select_opponents`, `player_opponents`,
  `match_delta`, `monthly_change`, `compute_deltas`, `month_step`,
  `simulate_run`, `simulate_rating_changes`
                              — the body of `ChessEloPredictor.simulate_rating_changes`
-/

namespace Elo

noncomputable section

abbrev Player := String

/-- Module-level `draw_probability(rating_diff, base_draw=0.20, steepness=0.006)`:
`base_draw + (0.5 - base_draw) * np.exp(-steepness * (rating_diff**2))`. -/
def draw_probability (rating_diff : ℝ) (base_draw : ℝ := 0.20) (steepness : ℝ := 0.006) : ℝ :=
  base_draw + (0.5 - base_draw) * Real.exp (-steepness * rating_diff ^ 2)

/-- `calculate_win_probability(rating_a, rating_b)`:
`1 / (1 + 10 ** ((rating_b - rating_a) / 400))`. -/
def calculate_win_probability (rating_a rating_b : ℝ) : ℝ :=
  1 / (1 + (10 : ℝ) ^ ((rating_b - rating_a) / 400))

/-- `simulate_match(rating_a, rating_b)`.  The value `u` is the single
`np.random.random()` draw the Python code consumes. -/
def simulate_match (rating_a rating_b u : ℝ) : ℝ :=
  let win_prob := calculate_win_probability rating_a rating_b
  let draw_prob := draw_probability |rating_a - rating_b|
  if u < draw_prob then 0.5
  else if u < win_prob * (1 - draw_prob) + draw_prob then 1.0
  else 0.0

/-- Dictionary lookup `current_sim_ratings[player]`.  Snapshots are association
lists keyed by player name (Python dict items); keys are unique in every state the
program builds.  The `getD 0` default is unreachable at the keys the code uses. -/
def lookupRating (s : List (Player × ℝ)) (p : Player) : ℝ :=
  ((s.find? (fun pr => pr.1 == p)).map Prod.snd).getD 0

/-- `sorted(current_sim_ratings.items(), key=lambda x: x[1], reverse=True)[:20]`.
Python `sorted` is stable; `insertionSort` with the reflexive descending relation is
the same stable descending sort. -/
def top_players (s : List (Player × ℝ)) : List (Player × ℝ) :=
  (List.insertionSort (fun p q => q.2 ≤ p.2) s).take 20

/-- `[p[0] for p in top_players if p[0] != player_a]`. -/
def opponent_names (active : List (Player × ℝ)) (a : Player) : List Player :=
  (active.filter (fun p => p.1 ≠ a)).map Prod.fst

/-- `rating_diffs = [abs(rating_a - p[1]) for p in top_players if p[0] != player_a]`. -/
def rating_diffs (active : List (Player × ℝ)) (a : Player) (ra : ℝ) : List ℝ :=
  (active.filter (fun p => p.1 ≠ a)).map (fun p => |ra - p.2|)

/-- `weights = 1 / (np.array(rating_diffs) + 100)`. -/
def raw_weights (active : List (Player × ℝ)) (a : Player) (ra : ℝ) : List ℝ :=
  (rating_diffs active a ra).map (fun d => 1 / (d + 100))

/-- `weights = weights / weights.sum()`. -/
def norm_weights (active : List (Player × ℝ)) (a : Player) (ra : ℝ) : List ℝ :=
  (raw_weights active a ra).map (fun w => w / (raw_weights active a ra).sum)

/-- One inverse-CDF draw from a categorical distribution with the given weights:
the index of the cell of the cumulative-weight partition containing `u`.  This models
one of the draws of `np.random.choice(..., p=weights)`. -/
def categorical : List ℝ → ℝ → ℕ
  | [], _ => 0
  | w :: ws, u => if u < w then 0 else categorical ws (u - w) + 1

/-- `np.random.choice(candidates, size=n, p=weights, replace=True)` drawing `n`
independent indices, each from its own uniform value `u i`.  The result `none`
models the `ValueError` numpy raises when the candidate list is empty while `n`
samples are requested.  `getD ... ""` is unreachable for `u i ∈ [0,1)` because the
normalized weights sum to `1`. -/
def select_opponents (cands : List Player) (ws : List ℝ) (n : ℕ) (u : ℕ → ℝ) :
    Option (List Player) :=
  if cands.isEmpty ∧ n ≠ 0 then none
  else some ((List.range n).map (fun i => cands.getD (categorical ws (u i)) ""))

/-- Opponent sampling for one active player `pa` (name, step-`t` rating). -/
def player_opponents (active : List (Player × ℝ)) (pa : Player × ℝ) (n : ℕ) (u : ℕ → ℝ) :
    Option (List Player) :=
  select_opponents (opponent_names active pa.1) (norm_weights active pa.1 pa.2) n u

/-- `rating_change = k_factor * (result - expected_score)` with `k_factor = 10`;
the opponent rating is read from the step-`t` snapshot `s` (`current_sim_ratings`). -/
def match_delta (s : List (Player × ℝ)) (ra : ℝ) (opp : Player) (u : ℝ) : ℝ :=
  10 * (simulate_match ra (lookupRating s opp) u - calculate_win_probability ra (lookupRating s opp))

/-- `monthly_rating_change` accumulated over the sampled opponents; match `i`
consumes the uniform value `um i`. -/
def monthly_change (s : List (Player × ℝ)) (ra : ℝ) (opps : List Player) (um : ℕ → ℝ) : ℝ :=
  (opps.enum.map (fun iu => match_delta s ra iu.2 (um iu.1))).sum

/-- The `for player_a, rating_a in top_players:` loop: sample opponents for every
active player and record each player's monthly rating change.  All reads are from
the step-`t` snapshot `s`; `none` propagates a sampling failure (numpy exception). -/
def compute_deltas (s active : List (Player × ℝ)) (n : ℕ) (uc um : Player → ℕ → ℝ) :
    List (Player × ℝ) → Option (List (Player × ℝ))
  | [] => some []
  | pa :: rest =>
    match player_opponents active pa n (uc pa.1) with
    | none => none
    | some opps =>
      match compute_deltas s active n uc um rest with
      | none => none
      | some ds => some ((pa.1, monthly_change s pa.2 opps (um pa.1)) :: ds)

/-- One month (`month_idx`) of `simulate_rating_changes` for one simulation run:
read the step-`t` snapshot, compute every active player's monthly change, and write
column `month_idx + 1`: active players get `current_sim_ratings[player_a] +
monthly_rating_change`; every other player's cell keeps the `np.zeros`
initialization, i.e. `0`. -/
def month_step (n : ℕ) (s : List (Player × ℝ)) (uc um : Player → ℕ → ℝ) :
    Option (List (Player × ℝ)) :=
  match compute_deltas s (top_players s) n uc um (top_players s) with
  | none => none
  | some ds =>
    some (s.map (fun pr =>
      (pr.1, ((ds.find? (fun d => d.1 == pr.1)).map
        (fun d => lookupRating s pr.1 + d.2)).getD 0)))

/-- The `for month_idx in range(len(months)):` loop of one simulation run, returning
the list of snapshots (columns `0 .. numMonths` of the arrays, restricted to this
run).  `uc`/`um` supply the uniform draws for month `t`. -/
def simulate_run (n : ℕ) (uc um : ℕ → Player → ℕ → ℝ) (s0 : List (Player × ℝ)) :
    ℕ → Option (List (List (Player × ℝ)))
  | 0 => some [s0]
  | m + 1 =>
    match month_step n s0 (uc 0) (um 0) with
    | none => none
    | some s1 =>
      match simulate_run n (fun t => uc (t + 1)) (fun t => um (t + 1)) s1 m with
      | none => none
      | some rest => some (s0 :: rest)

/-- `simulate_rating_changes(start_date, end_date)` over all `n_simulations`
independent runs; `numMonths = len(months)` is the length of the monthly grid
`pd.date_range(start_date, end_date, freq="M")` (empty or inverted date ranges give
an empty grid, i.e. `numMonths = 0`).  An exception in any run aborts the whole
call (`none`). -/
def simulate_rating_changes (n : ℕ) (uc um : ℕ → ℕ → Player → ℕ → ℝ)
    (s0 : List (Player × ℝ)) (numMonths : ℕ) :
    ℕ → Option (List (List (List (Player × ℝ))))
  | 0 => some []
  | nsims + 1 =>
    match simulate_run n (uc nsims) (um nsims) s0 numMonths with
    | none => none
    | some traj =>
      match simulate_rating_changes n uc um s0 numMonths nsims with
      | none => none
      | some rest => some (traj :: rest)

/-- `get_latest_ratings`: the last non-missing entry of each player's historical
series; players with no valid rating are dropped. -/
def get_latest_ratings (df : List (Player × List (Option ℝ))) : List (Player × ℝ) :=
  df.filterMap (fun pr => ((pr.2.filterMap id).getLast?).map (fun r => (pr.1, r)))

/-- One player's rating trajectory through a run's snapshots
(`simulated_ratings[player][sim, :]`). -/
def trajectory (snaps : List (List (Player × ℝ))) (p : Player) : List ℝ :=
  snaps.map (fun s => lookupRating s p)

/-- Concrete snapshot with a single player (witness data). -/
def pool1 : List (Player × ℝ) := [("A", 2800)]

/-- Concrete snapshot with two players of different rating (witness data). -/
def pool2 : List (Player × ℝ) := [("A", 2800), ("B", 2700)]

/-- Concrete snapshot with two equally rated players (witness data). -/
def pool2e : List (Player × ℝ) := [("Alice", 2800), ("Bob", 2800)]

/-- Concrete snapshot with three players (witness data). -/
def pool3 : List (Player × ℝ) := [("A", 2800), ("B", 2750), ("C", 2700)]

/-- The top twenty players of `pool21`, in descending rating order. -/
def first20 : List (Player × ℝ) :=
  [("P01", 2821), ("P02", 2820), ("P03", 2819), ("P04", 2818), ("P05", 2817),
   ("P06", 2816), ("P07", 2815), ("P08", 2814), ("P09", 2813), ("P10", 2812),
   ("P11", 2811), ("P12", 2810), ("P13", 2809), ("P14", 2808), ("P15", 2807),
   ("P16", 2806), ("P17", 2805), ("P18", 2804), ("P19", 2803), ("P20", 2802)]

/-- Twenty-one players in descending rating order: player `P21` is outside the
top-20 active pool. -/
def pool21 : List (Player × ℝ) := first20 ++ [("P21", 2801)]

/-- Historical table with a single player and a single valid rating (witness data). -/
def df1 : List (Player × List (Option ℝ)) := [("A", [some 2790, none, some 2800])]

/-- The draw probability (with default constants) is strictly above its floor. -/
lemma dp_pos (x : ℝ) : 0 < draw_probability x := by
  have h := Real.exp_pos (-(0.006 : ℝ) * x ^ 2)
  unfold draw_probability
  nlinarith

/-- The draw probability (with default constants) never exceeds `0.5`. -/
lemma dp_le_half (x : ℝ) : draw_probability x ≤ 0.5 := by
  have h := Real.exp_le_one_iff.mpr (by nlinarith [sq_nonneg x] : -(0.006 : ℝ) * x ^ 2 ≤ 0)
  unfold draw_probability
  nlinarith

lemma cw_pos (a b : ℝ) : 0 < calculate_win_probability a b := by
  unfold calculate_win_probability
  have hx : (0 : ℝ) < (10 : ℝ) ^ ((b - a) / 400) := Real.rpow_pos_of_pos (by norm_num) _
  positivity

lemma cw_lt_one (a b : ℝ) : calculate_win_probability a b < 1 := by
  have hx : (0 : ℝ) < (10 : ℝ) ^ ((b - a) / 400) := Real.rpow_pos_of_pos (by norm_num) _
  unfold calculate_win_probability
  rw [div_lt_one (by positivity)]
  linarith

lemma cw_self (a : ℝ) : calculate_win_probability a a = 0.5 := by
  unfold calculate_win_probability
  rw [sub_self, zero_div, Real.rpow_zero]
  norm_num

/-- The draw threshold is below the win threshold. -/
lemma dp_le_win_threshold (a b : ℝ) :
    draw_probability |a - b| ≤
      calculate_win_probability a b * (1 - draw_probability |a - b|) + draw_probability |a - b| := by
  have h1 := cw_pos a b
  have h2 := dp_le_half |a - b|
  nlinarith

/-- The win threshold is at most `1`. -/
lemma win_threshold_le_one (a b : ℝ) :
    calculate_win_probability a b * (1 - draw_probability |a - b|) + draw_probability |a - b| ≤ 1 := by
  have h1 := cw_lt_one a b
  have h2 := dp_le_half |a - b|
  have h3 := dp_pos |a - b|
  nlinarith

/-- Claim C3: `simulateOutcome` is a three-way case split on the single uniform draw `u`:
draw (`0.5`) iff `u < drawProbability(|a-b|)`, win (`1.0`) iff
`drawProbability ≤ u < expectedScore·(1-drawProbability) + drawProbability`, loss (`0.0`)
otherwise; the result is always in `{0.0, 0.5, 1.0}`; the three probability masses are
the interval lengths `drawProbability`, `expectedScore·(1-drawProbability)` and the
remainder, which are nonnegative and partition `[0,1)` exactly to total mass `1`. -/
theorem C3_simulate_match (a b u : ℝ) :
    (simulate_match a b u = 0.5 ↔ u < draw_probability |a - b|) ∧
    (simulate_match a b u = 1 ↔ draw_probability |a - b| ≤ u ∧
      u < calculate_win_probability a b * (1 - draw_probability |a - b|)
        + draw_probability |a - b|) ∧
    (simulate_match a b u = 0 ↔
      calculate_win_probability a b * (1 - draw_probability |a - b|)
        + draw_probability |a - b| ≤ u) ∧
    (simulate_match a b u = 0.5 ∨ simulate_match a b u = 1 ∨ simulate_match a b u = 0) ∧
    0 < draw_probability |a - b| ∧
    draw_probability |a - b| ≤
      calculate_win_probability a b * (1 - draw_probability |a - b|)
        + draw_probability |a - b| ∧
    calculate_win_probability a b * (1 - draw_probability |a - b|)
      + draw_probability |a - b| ≤ 1 ∧
    (calculate_win_probability a b * (1 - draw_probability |a - b|)
        + draw_probability |a - b|) - draw_probability |a - b|
      = calculate_win_probability a b * (1 - draw_probability |a - b|) ∧
    draw_probability |a - b|
      + ((calculate_win_probability a b * (1 - draw_probability |a - b|)
          + draw_probability |a - b|) - draw_probability |a - b|)
      + (1 - (calculate_win_probability a b * (1 - draw_probability |a - b|)
          + draw_probability |a - b|)) = 1 := by
  have hdt := dp_le_win_threshold a b
  refine ⟨?_, ?_, ?_, ?_, dp_pos _, hdt, win_threshold_le_one a b, by ring, by ring⟩
  · unfold simulate_match
    dsimp only
    split_ifs with h1 h2
    · exact iff_of_true rfl h1
    · exact iff_of_false (by norm_num) h1
    · exact iff_of_false (by norm_num) h1
  · unfold simulate_match
    dsimp only
    split_ifs with h1 h2
    · exact iff_of_false (by norm_num) (fun h => absurd h1 (not_lt.mpr h.1))
    · exact iff_of_true (by norm_num) ⟨not_lt.mp h1, h2⟩
    · exact iff_of_false (by norm_num) (fun h => h2 h.2)
  · unfold simulate_match
    dsimp only
    split_ifs with h1 h2
    · exact iff_of_false (by norm_num) (fun h => absurd (lt_of_lt_of_le h1 hdt) (not_lt.mpr h))
    · exact iff_of_false (by norm_num) (fun h => absurd h2 (not_lt.mpr h))
    · exact iff_of_true (by norm_num) (not_lt.mp h2)
  · unfold simulate_match
    dsimp only
    split_ifs
    · exact Or.inl rfl
    · exact Or.inr (Or.inl (by norm_num))
    · exact Or.inr (Or.inr (by norm_num))

/-- Claim C4: `expectedScore(a, b)` equals `1 / (1 + 10^((b - a)/400))`, lies strictly
in `(0, 1)`, satisfies `expectedScore(a,b) + expectedScore(b,a) = 1` exactly (hence
within the floating tolerance `1e-9`), and `expectedScore(a,a) = 0.5`. -/
theorem C4_expected_score (a b : ℝ) :
    calculate_win_probability a b = 1 / (1 + (10 : ℝ) ^ ((b - a) / 400)) ∧
    0 < calculate_win_probability a b ∧
    calculate_win_probability a b < 1 ∧
    calculate_win_probability a b + calculate_win_probability b a = 1 ∧
    |calculate_win_probability a b + calculate_win_probability b a - 1| ≤ 1e-9 ∧
    calculate_win_probability a a = 0.5 := by
  have hx : (0 : ℝ) < (10 : ℝ) ^ ((b - a) / 400) := Real.rpow_pos_of_pos (by norm_num) _
  have hy : (0 : ℝ) < (10 : ℝ) ^ ((a - b) / 400) := Real.rpow_pos_of_pos (by norm_num) _
  have hinv : (10 : ℝ) ^ ((a - b) / 400) = ((10 : ℝ) ^ ((b - a) / 400))⁻¹ := by
    rw [show (a - b) / 400 = -((b - a) / 400) by ring,
      Real.rpow_neg (by norm_num : (0 : ℝ) ≤ 10)]
  have hsum : calculate_win_probability a b + calculate_win_probability b a = 1 := by
    unfold calculate_win_probability
    rw [hinv]
    have h1 : (1 : ℝ) + (10 : ℝ) ^ ((b - a) / 400) ≠ 0 := by positivity
    have h2 : ((10 : ℝ) ^ ((b - a) / 400)) ≠ 0 := ne_of_gt hx
    field_simp
    ring
  refine ⟨rfl, by unfold calculate_win_probability; positivity, ?_, hsum, by
    rw [hsum]; norm_num, ?_⟩
  · unfold calculate_win_probability
    rw [div_lt_one (by positivity)]
    linarith
  · unfold calculate_win_probability
    rw [sub_self, zero_div, Real.rpow_zero]
    norm_num

/-- Claim C5 counterexample: at rating difference `0` the draw probability is exactly
`0.5`, so it does not lie in the half-open interval `[0.20, 0.5)` and is not strictly
below `0.5`. -/
theorem C5_counterexample : draw_probability 0 = 0.5 ∧ ¬ draw_probability 0 < 0.5 := by
  have h : draw_probability 0 = 0.5 := by
    norm_num [draw_probability, Real.exp_zero]
  exact ⟨h, by rw [h]; exact lt_irrefl _⟩

/-- Claim C5 (amended): with the default constants, for every rating difference `d` the
draw probability lies in `(0.20, 0.5]`; it is *strictly* below `0.5` exactly for `d ≠ 0`
(at `d = 0` it equals `0.5`); it is strictly decreasing on `[0, ∞)`; and at `d = 2000`
it is within `1e-3` of the floor `0.20`. -/
theorem C5_amended :
    (∀ d : ℝ, 0.20 < draw_probability d ∧ draw_probability d ≤ 0.5) ∧
    (∀ d : ℝ, 0 < d → draw_probability d < 0.5) ∧
    (∀ d e : ℝ, 0 ≤ d → d < e → draw_probability e < draw_probability d) ∧
    draw_probability 0 = 0.5 ∧
    |draw_probability 2000 - 0.20| < 1e-3 := by
  refine ⟨?_, ?_, ?_, ?_, ?_⟩
  · intro d
    have h1 := Real.exp_pos (-(0.006 : ℝ) * d ^ 2)
    have h2 : Real.exp (-(0.006 : ℝ) * d ^ 2) ≤ 1 :=
      Real.exp_le_one_iff.mpr (by nlinarith [sq_nonneg d])
    constructor
    · unfold draw_probability; nlinarith
    · unfold draw_probability; nlinarith
  · intro d hd
    have h2 : Real.exp (-(0.006 : ℝ) * d ^ 2) < 1 :=
      Real.exp_lt_one_iff.mpr (by nlinarith)
    unfold draw_probability
    nlinarith
  · intro d e hd hde
    have hsq : d ^ 2 < e ^ 2 := by nlinarith
    have h2 : Real.exp (-(0.006 : ℝ) * e ^ 2) < Real.exp (-(0.006 : ℝ) * d ^ 2) :=
      Real.exp_lt_exp.mpr (by nlinarith)
    unfold draw_probability
    nlinarith
  · norm_num [draw_probability, Real.exp_zero]
  · have harg : -(0.006 : ℝ) * (2000 : ℝ) ^ 2 = -24000 := by norm_num
    have h1 : (24000 : ℝ) + 1 ≤ Real.exp 24000 := Real.add_one_le_exp _
    have h2 : Real.exp (-(24000 : ℝ)) = (Real.exp 24000)⁻¹ := Real.exp_neg _
    have h3 : (0 : ℝ) < Real.exp 24000 := Real.exp_pos _
    have h4 : Real.exp (-(24000 : ℝ)) < 1 / 300 := by
      rw [h2]
      rw [inv_lt_iff_one_lt_mul₀ h3]
      nlinarith
    have h5 : (0 : ℝ) < Real.exp (-(24000 : ℝ)) := Real.exp_pos _
    unfold draw_probability
    rw [harg]
    rw [abs_of_pos (by nlinarith)]
    nlinarith

lemma sum_map_div (l : List ℝ) (c : ℝ) : (l.map (fun w => w / c)).sum = l.sum / c := by
  induction l with
  | nil => simp
  | cons h t ih => simp [ih, add_div]

lemma raw_weights_pos (active : List (Player × ℝ)) (a : Player) (ra : ℝ) :
    ∀ w ∈ raw_weights active a ra, 0 < w := by
  intro w hw
  simp only [raw_weights, rating_diffs, List.map_map, List.mem_map] at hw
  obtain ⟨p, hp, rfl⟩ := hw
  have h : (0 : ℝ) ≤ |ra - p.2| := abs_nonneg _
  simp only [Function.comp]
  positivity

lemma raw_weights_length (active : List (Player × ℝ)) (a : Player) (ra : ℝ) :
    (raw_weights active a ra).length = (opponent_names active a).length := by
  simp [raw_weights, rating_diffs, opponent_names]

lemma norm_weights_length (active : List (Player × ℝ)) (a : Player) (ra : ℝ) :
    (norm_weights active a ra).length = (opponent_names active a).length := by
  simp [norm_weights, raw_weights, rating_diffs, opponent_names]

lemma raw_weights_sum_pos (active : List (Player × ℝ)) (a : Player) (ra : ℝ)
    (h : opponent_names active a ≠ []) : 0 < (raw_weights active a ra).sum := by
  refine List.sum_pos _ (raw_weights_pos active a ra) ?_
  intro hnil
  apply h
  have := raw_weights_length active a ra
  rw [hnil] at this
  exact List.length_eq_zero.mp this.symm

/-- The normalized opponent-sampling weights sum to exactly `1`. -/
lemma norm_weights_sum (active : List (Player × ℝ)) (a : Player) (ra : ℝ)
    (h : opponent_names active a ≠ []) : (norm_weights active a ra).sum = 1 := by
  have hpos := raw_weights_sum_pos active a ra h
  unfold norm_weights
  rw [sum_map_div]
  exact div_self (ne_of_gt hpos)

/-- The inverse-CDF index is in range whenever `u` falls inside the total mass. -/
lemma categorical_lt_length (ws : List ℝ) (u : ℝ) (h0 : 0 ≤ u) (h1 : u < ws.sum) :
    categorical ws u < ws.length := by
  induction ws generalizing u with
  | nil => simp at h1; linarith
  | cons w t ih =>
    unfold categorical
    by_cases hu : u < w
    · simp [hu]
    · rw [if_neg hu]
      have hw : w ≤ u := not_lt.mp hu
      have := ih (u - w) (by linarith) (by rw [List.sum_cons] at h1; linarith)
      simpa using this

lemma getD_mem_of_lt {l : List Player} {i : ℕ} (h : i < l.length) (d : Player) :
    l.getD i d ∈ l := by
  rw [List.getD_eq_getElem?_getD, List.getElem?_eq_getElem h]
  exact List.getElem_mem h

/-- A successful `np.random.choice` call returns exactly `n` samples. -/
lemma select_opponents_length {cands : List Player} {ws : List ℝ} {n : ℕ} {u : ℕ → ℝ}
    {opps : List Player} (h : select_opponents cands ws n u = some opps) :
    opps.length = n := by
  unfold select_opponents at h
  split_ifs at h
  injection h with h
  rw [← h]
  simp

/-- Opponent sampling succeeds iff candidates exist (or no samples are requested). -/
lemma select_opponents_isSome {cands : List Player} {ws : List ℝ} {n : ℕ} {u : ℕ → ℝ}
    (h : cands ≠ []) : select_opponents cands ws n u =
      some ((List.range n).map (fun i => cands.getD (categorical ws (u i)) "")) := by
  unfold select_opponents
  rw [if_neg]
  intro hc
  exact absurd (List.isEmpty_iff.mp hc.1) h

/-- Every sampled opponent is a member of the candidate pool, provided each uniform
value lies in `[0,1)` and the weights are the normalized ones. -/
lemma select_opponents_mem {cands : List Player} {ws : List ℝ} {n : ℕ} {u : ℕ → ℝ}
    {opps : List Player} (hsum : ws.sum = 1) (hlen : ws.length = cands.length)
    (hu : ∀ i, 0 ≤ u i ∧ u i < 1)
    (h : select_opponents cands ws n u = some opps) :
    ∀ o ∈ opps, o ∈ cands := by
  unfold select_opponents at h
  split_ifs at h
  injection h with h
  intro o ho
  rw [← h] at ho
  simp only [List.mem_map, List.mem_range] at ho
  obtain ⟨i, _, rfl⟩ := ho
  have hc : categorical ws (u i) < ws.length :=
    categorical_lt_length ws (u i) (hu i).1 (by rw [hsum]; exact (hu i).2)
  exact getD_mem_of_lt (by omega) _

/-- `find?` by key commutes with a value-rewriting map. -/
lemma find?_map_key (s : List (Player × ℝ)) (g : Player × ℝ → ℝ) (q : Player) :
    (s.map (fun pr => (pr.1, g pr))).find? (fun pr => pr.1 == q)
      = (s.find? (fun pr => pr.1 == q)).map (fun pr => (pr.1, g pr)) := by
  induction s with
  | nil => rfl
  | cons h t ih =>
    by_cases hq : h.1 = q
    · rw [List.map_cons, List.find?_cons_of_pos _ (by simpa using hq),
        List.find?_cons_of_pos _ (by simpa using hq)]
      simp
    · rw [List.map_cons, List.find?_cons_of_neg _ (by simpa using hq),
        List.find?_cons_of_neg _ (by simpa using hq), ih]

/-- Looking up a key in a value-rewritten association list. -/
lemma lookupRating_map_key (s : List (Player × ℝ)) (g : Player × ℝ → ℝ) (q : Player) :
    lookupRating (s.map (fun pr => (pr.1, g pr))) q
      = ((s.find? (fun pr => pr.1 == q)).map g).getD 0 := by
  unfold lookupRating
  rw [find?_map_key]
  cases s.find? (fun pr => pr.1 == q) <;> simp

/-- With distinct keys, `find?` at a member's key returns exactly that member. -/
lemma find?_key_of_mem {s : List (Player × ℝ)} {pa : Player × ℝ}
    (hnd : (s.map Prod.fst).Nodup) (hmem : pa ∈ s) :
    s.find? (fun pr => pr.1 == pa.1) = some pa := by
  induction s with
  | nil => cases hmem
  | cons h t ih =>
    rw [List.map_cons, List.nodup_cons] at hnd
    rcases List.mem_cons.mp hmem with rfl | hmem'
    · exact List.find?_cons_of_pos _ (by simp)
    · have hne : h.1 ≠ pa.1 := by
        intro he
        exact hnd.1 (he ▸ List.mem_map_of_mem Prod.fst hmem')
      rw [List.find?_cons_of_neg _ (by simpa using hne)]
      exact ih hnd.2 hmem'

/-- With distinct keys, looking up a member's key returns its stored rating. -/
lemma lookupRating_eq_snd {s : List (Player × ℝ)} {pa : Player × ℝ}
    (hnd : (s.map Prod.fst).Nodup) (hmem : pa ∈ s) :
    lookupRating s pa.1 = pa.2 := by
  unfold lookupRating
  rw [find?_key_of_mem hnd hmem]
  rfl

/-- The per-player loop succeeds when every processed player has candidates. -/
lemma compute_deltas_isSome (s active : List (Player × ℝ)) (n : ℕ)
    (uc um : Player → ℕ → ℝ) (l : List (Player × ℝ))
    (h : ∀ pa ∈ l, opponent_names active pa.1 ≠ []) :
    ∃ ds, compute_deltas s active n uc um l = some ds := by
  induction l with
  | nil => exact ⟨[], rfl⟩
  | cons pa rest ih =>
    obtain ⟨ds, hds⟩ := ih (fun q hq => h q (List.mem_cons_of_mem _ hq))
    refine ⟨(pa.1, monthly_change s pa.2
      ((List.range n).map (fun i => (opponent_names active pa.1).getD
        (categorical (norm_weights active pa.1 pa.2) (uc pa.1 i)) "")) (um pa.1)) :: ds, ?_⟩
    unfold compute_deltas player_opponents
    rw [select_opponents_isSome (h pa (List.mem_cons_self _ _)), hds]

/-- The per-player loop records exactly the processed players' names, in order. -/
lemma compute_deltas_keys {s active : List (Player × ℝ)} {n : ℕ}
    {uc um : Player → ℕ → ℝ} {l ds : List (Player × ℝ)}
    (h : compute_deltas s active n uc um l = some ds) :
    ds.map Prod.fst = l.map Prod.fst := by
  induction l generalizing ds with
  | nil =>
    unfold compute_deltas at h
    injection h with h
    rw [← h]
  | cons pa rest ih =>
    unfold compute_deltas at h
    cases hsel : player_opponents active pa n (uc pa.1) with
    | none => rw [hsel] at h; cases h
    | some opps =>
      rw [hsel] at h
      cases hrec : compute_deltas s active n uc um rest with
      | none => rw [hrec] at h; cases h
      | some ds' =>
        rw [hrec] at h
        injection h with h
        rw [← h, List.map_cons, ih hrec]
        simp

/-- The delta recorded for a processed player `pa` is its monthly accumulated
`10 * (outcome - expected)` over its own sampled opponents. -/
lemma compute_deltas_find {s active : List (Player × ℝ)} {n : ℕ}
    {uc um : Player → ℕ → ℝ} {l ds : List (Player × ℝ)} {pa : Player × ℝ}
    {opps : List Player}
    (hnd : (l.map Prod.fst).Nodup) (hmem : pa ∈ l)
    (hcd : compute_deltas s active n uc um l = some ds)
    (hopp : player_opponents active pa n (uc pa.1) = some opps) :
    ds.find? (fun d => d.1 == pa.1)
      = some (pa.1, monthly_change s pa.2 opps (um pa.1)) := by
  induction l generalizing ds with
  | nil => cases hmem
  | cons h t ih =>
    rw [List.map_cons, List.nodup_cons] at hnd
    unfold compute_deltas at hcd
    cases hsel : player_opponents active h n (uc h.1) with
    | none => rw [hsel] at hcd; cases hcd
    | some opps' =>
      rw [hsel] at hcd
      cases hrec : compute_deltas s active n uc um t with
      | none => rw [hrec] at hcd; cases hcd
      | some ds' =>
        rw [hrec] at hcd
        injection hcd with hcd
        rcases List.mem_cons.mp hmem with rfl | hmem'
        · rw [hopp] at hsel
          injection hsel with hsel
          rw [← hcd, List.find?_cons_of_pos _ (by simp), hsel]
        · have hne : h.1 ≠ pa.1 := by
            intro he
            exact hnd.1 (he ▸ List.mem_map_of_mem Prod.fst hmem')
          rw [← hcd, List.find?_cons_of_neg _ (by simpa using hne)]
          exact ih hnd.2 hmem' hrec

/-- A short snapshot that is already in descending rating order is its own active
pool. -/
lemma top_players_of_sorted {s : List (Player × ℝ)}
    (hs : List.Sorted (fun p q : Player × ℝ => q.2 ≤ p.2) s) (hlen : s.length ≤ 20) :
    top_players s = s := by
  unfold top_players
  rw [hs.insertionSort_eq, List.take_of_length_le hlen]

/-- Active players are players of the snapshot. -/
lemma mem_top_players {s : List (Player × ℝ)} {pa : Player × ℝ}
    (h : pa ∈ top_players s) : pa ∈ s := by
  unfold top_players at h
  have h1 := List.take_subset 20 _ h
  exact (List.Perm.mem_iff (List.perm_insertionSort _ s)).mp h1

/-- Distinct snapshot keys give distinct active-pool keys. -/
lemma top_players_keys_nodup {s : List (Player × ℝ)}
    (h : (s.map Prod.fst).Nodup) : ((top_players s).map Prod.fst).Nodup := by
  unfold top_players
  have hperm : List.Perm
      ((List.insertionSort (fun p q : Player × ℝ => q.2 ≤ p.2) s).map Prod.fst)
      (s.map Prod.fst) := (List.perm_insertionSort _ s).map _
  have hnd2 : ((List.insertionSort (fun p q : Player × ℝ => q.2 ≤ p.2) s).map Prod.fst).Nodup :=
    hperm.nodup_iff.mpr h
  exact hnd2.sublist ((List.take_sublist 20 _).map Prod.fst)

/-- In a pool of at least two distinct-keyed players, every member has at least one
candidate opponent. -/
lemma opponent_names_ne_nil {active : List (Player × ℝ)} {pa : Player × ℝ}
    (hmem : pa ∈ active) (hnd : (active.map Prod.fst).Nodup)
    (hlen : 2 ≤ active.length) : opponent_names active pa.1 ≠ [] := by
  intro hnil
  have hfil : active.filter (fun p => p.1 ≠ pa.1) = [] := by
    unfold opponent_names at hnil
    exact List.map_eq_nil_iff.mp hnil
  have hall : ∀ q ∈ active, q.1 = pa.1 := by
    intro q hq
    by_contra hne
    have hmemf : q ∈ active.filter (fun p => p.1 ≠ pa.1) :=
      List.mem_filter.mpr ⟨hq, by simpa using hne⟩
    rw [hfil] at hmemf
    cases hmemf
  obtain ⟨a, rest1, rfl⟩ : ∃ a rest1, active = a :: rest1 := by
    cases active with
    | nil => exact absurd hlen (by simp)
    | cons a t => exact ⟨a, t, rfl⟩
  obtain ⟨b, rest, rfl⟩ : ∃ b rest, rest1 = b :: rest := by
    cases rest1 with
    | nil => exact absurd hlen (by simp)
    | cons b t => exact ⟨b, t, rfl⟩
  rw [List.map_cons, List.nodup_cons] at hnd
  apply hnd.1
  rw [hall a (List.mem_cons_self _ _),
    ← hall b (List.mem_cons_of_mem _ (List.mem_cons_self _ _))]
  exact List.mem_map_of_mem Prod.fst (List.mem_cons_self _ _)

/-- A successful run returns `numMonths + 1` snapshots, the first being the initial
snapshot. -/
lemma simulate_run_shape {n : ℕ} {uc um : ℕ → Player → ℕ → ℝ}
    {s0 : List (Player × ℝ)} {T : ℕ} {traj : List (List (Player × ℝ))}
    (h : simulate_run n uc um s0 T = some traj) :
    traj.length = T + 1 ∧ traj.head? = some s0 := by
  induction T generalizing uc um s0 traj with
  | zero =>
    unfold simulate_run at h
    injection h with h
    rw [← h]
    exact ⟨rfl, rfl⟩
  | succ m ih =>
    unfold simulate_run at h
    cases h1 : month_step n s0 (uc 0) (um 0) with
    | none => rw [h1] at h; cases h
    | some s1 =>
      rw [h1] at h
      dsimp only at h
      cases h2 : simulate_run n (fun t => uc (t + 1)) (fun t => um (t + 1)) s1 m with
      | none => rw [h2] at h; cases h
      | some rest =>
        rw [h2] at h
        injection h with h
        obtain ⟨hl, _⟩ := ih h2
        rw [← h]
        exact ⟨by simp [hl], rfl⟩

/-- Claim C7: with fewer than two players in the active pool (here: exactly one)
and a positive number of matches to sample, the month update fails — `none`
models the `ValueError` numpy raises for an empty candidate list — and the
failure aborts the whole simulation run instead of silently skipping the player. -/
theorem C7_insufficient_population (s : List (Player × ℝ)) (n m : ℕ)
    (uc um : ℕ → Player → ℕ → ℝ)
    (h : (top_players s).length = 1) (hn : n ≠ 0) :
    month_step n s (uc 0) (um 0) = none ∧ simulate_run n uc um s (m + 1) = none := by
  obtain ⟨pa, hpa⟩ := List.length_eq_one.mp h
  have hstep : month_step n s (uc 0) (um 0) = none := by
    have hopp : opponent_names [pa] pa.1 = [] := by
      simp [opponent_names]
    have hcd : compute_deltas s [pa] n (uc 0) (um 0) [pa] = none := by
      unfold compute_deltas player_opponents select_opponents
      rw [hopp, if_pos ⟨by simp, hn⟩]
    unfold month_step
    rw [hpa, hcd]
  refine ⟨hstep, ?_⟩
  unfold simulate_run
  rw [hstep]

/-- Claim C7 witness: a single-player population triggers the failure. -/
theorem C7_witness :
    (top_players pool1).length = 1 ∧ (5 : ℕ) ≠ 0 ∧
    month_step 5 pool1 ((fun _ _ _ => 1/2) 0) ((fun _ _ _ => 1/2) 0) = none ∧
    simulate_run 5 (fun _ _ _ => 1/2) (fun _ _ _ => 1/2) pool1 (0 + 1) = none := by
  have h : (top_players pool1).length = 1 := by
    rw [top_players_of_sorted (by simp [pool1, List.sorted_cons]) (by norm_num [pool1])]
    norm_num [pool1]
  have h2 := C7_insufficient_population pool1 5 0
    (fun _ _ _ => 1/2) (fun _ _ _ => 1/2) h (by norm_num)
  exact ⟨h, by norm_num, h2.1, h2.2⟩

/-- Claim C9 counterexample: with an empty monthly grid (`numMonths = 0`, the grid
`pd.date_range` produces for an inverted or empty date range), the simulator does
not fail: it successfully returns a zero-month ensemble whose trajectories contain
only the initial snapshot. -/
theorem C9_counterexample :
    simulate_rating_changes 5 (fun _ _ _ _ => 1/2) (fun _ _ _ _ => 1/2) pool1 0 2
      = some [[pool1], [pool1]] ∧
    (simulate_rating_changes 5 (fun _ _ _ _ => 1/2) (fun _ _ _ _ => 1/2) pool1 0 2).isSome
      = true := by
  constructor <;> rfl

/-- Claim C9 (amended): when the requested date range produces an empty monthly
grid, `simulate_rating_changes` performs no month steps and successfully returns a
zero-month ensemble — every run's trajectory is exactly the one initial snapshot —
rather than reporting a configuration error. -/
theorem C9_amended_empty_grid (n nsims : ℕ) (uc um : ℕ → ℕ → Player → ℕ → ℝ)
    (s0 : List (Player × ℝ)) :
    simulate_rating_changes n uc um s0 0 nsims = some (List.replicate nsims [s0]) := by
  induction nsims with
  | zero => rfl
  | succ k ih =>
    unfold simulate_rating_changes
    rw [show simulate_run n (uc k) (um k) s0 0 = some [s0] from rfl, ih,
      List.replicate_succ]

/-- Claim C8: for every player and every run (i.e. every assignment of uniform
draws), a successfully produced trajectory has length `numMonths + 1` and its
entry `0` is exactly the player's latest known rating from the history; the
initial snapshot itself is the head of the run, never overwritten. -/
theorem C8_trajectory_invariant (df : List (Player × List (Option ℝ))) (n T : ℕ)
    (uc um : ℕ → Player → ℕ → ℝ) (p : Player) (traj : List (List (Player × ℝ)))
    (h : simulate_run n uc um (get_latest_ratings df) T = some traj) :
    (trajectory traj p).length = T + 1 ∧
    (trajectory traj p).head? = some (lookupRating (get_latest_ratings df) p) ∧
    traj.head? = some (get_latest_ratings df) := by
  obtain ⟨hl, hh⟩ := simulate_run_shape h
  refine ⟨?_, ?_, hh⟩
  · unfold trajectory
    rw [List.length_map, hl]
  · unfold trajectory
    rw [List.head?_map, hh]
    rfl

/-- Claim C8 witness: a concrete one-player history over a zero-month horizon. -/
theorem C8_witness :
    ∃ traj, simulate_run 5 (fun _ _ _ => 1/2) (fun _ _ _ => 1/2)
        (get_latest_ratings df1) 0 = some traj ∧
      (trajectory traj "A").length = 0 + 1 ∧
      (trajectory traj "A").head? = some (lookupRating (get_latest_ratings df1) "A") ∧
      lookupRating (get_latest_ratings df1) "A" = 2800 := by
  have h := C8_trajectory_invariant df1 5 0 (fun _ _ _ => 1/2) (fun _ _ _ => 1/2) "A"
    [get_latest_ratings df1] rfl
  exact ⟨[get_latest_ratings df1], rfl, h.1, h.2.1, rfl⟩

/-- Claim C2: in a successful month step, every active player's new rating equals
its step-`t` rating plus the sum over the `n = matchesPerMonth` sampled matches of
`K * (outcome - expectedScore)` with `K = 10`, where both the outcome draw and the
expected score read the opponent's rating from the same step-`t` snapshot `s`; no
within-month update is visible to any other player's computation because every
quantity on the right-hand side is a function of `s` alone
(read-all-then-write-all). -/
theorem C2_month_update (n : ℕ) (s : List (Player × ℝ)) (uc um : Player → ℕ → ℝ)
    (pa : Player × ℝ) (s2 : List (Player × ℝ)) (opps : List Player)
    (hnd : (s.map Prod.fst).Nodup)
    (hmem : pa ∈ top_players s)
    (hstep : month_step n s uc um = some s2)
    (hopp : player_opponents (top_players s) pa n (uc pa.1) = some opps) :
    lookupRating s2 pa.1 = lookupRating s pa.1 +
      (opps.enum.map (fun iu =>
        10 * (simulate_match pa.2 (lookupRating s iu.2) (um pa.1 iu.1)
          - calculate_win_probability pa.2 (lookupRating s iu.2)))).sum ∧
    opps.length = n ∧
    pa.2 = lookupRating s pa.1 := by
  have hnda : ((top_players s).map Prod.fst).Nodup := top_players_keys_nodup hnd
  have hmems : pa ∈ s := mem_top_players hmem
  have hpa2 : lookupRating s pa.1 = pa.2 := lookupRating_eq_snd hnd hmems
  unfold month_step at hstep
  cases hcd : compute_deltas s (top_players s) n uc um (top_players s) with
  | none => rw [hcd] at hstep; cases hstep
  | some ds =>
    rw [hcd] at hstep
    injection hstep with hstep
    have hfind := compute_deltas_find hnda hmem hcd hopp
    refine ⟨?_, select_opponents_length hopp, hpa2.symm⟩
    rw [← hstep, lookupRating_map_key s _ pa.1, find?_key_of_mem hnd hmems]
    simp only [Option.map_some', Option.getD_some, hfind, monthly_change, match_delta]

/-- Claim C2 witness: a concrete two-player pool and concrete uniform draws. -/
theorem C2_witness :
    ∃ s2 opps,
      month_step 5 pool2 (fun _ _ => 1/2) (fun _ _ => 1/2) = some s2 ∧
      player_opponents (top_players pool2) ("A", 2800) 5 ((fun _ _ => (1/2 : ℝ)) "A")
        = some opps ∧
      opps.length = 5 ∧
      lookupRating s2 "A" = lookupRating pool2 "A" +
        (opps.enum.map (fun iu =>
          10 * (simulate_match 2800 (lookupRating pool2 iu.2)
              ((fun _ _ => (1/2 : ℝ)) "A" iu.1)
            - calculate_win_probability 2800 (lookupRating pool2 iu.2)))).sum := by
  have htop : top_players pool2 = pool2 :=
    top_players_of_sorted (by norm_num [pool2, List.sorted_cons]) (by norm_num [pool2])
  have hnd : (pool2.map Prod.fst).Nodup := by decide
  have hmem : ("A", (2800 : ℝ)) ∈ top_players pool2 := by
    rw [htop]
    unfold pool2
    exact List.mem_cons_self _ _
  have hcand : ∀ q ∈ top_players pool2, opponent_names (top_players pool2) q.1 ≠ [] :=
    fun q hq => opponent_names_ne_nil hq (top_players_keys_nodup hnd)
      (by rw [htop]; norm_num [pool2])
  obtain ⟨ds, hds⟩ := compute_deltas_isSome pool2 (top_players pool2) 5
    (fun _ _ => 1/2) (fun _ _ => 1/2) (top_players pool2) hcand
  have hstep : month_step 5 pool2 (fun _ _ => 1/2) (fun _ _ => 1/2)
      = some (pool2.map (fun pr =>
        (pr.1, ((ds.find? (fun d => d.1 == pr.1)).map
          (fun d => lookupRating pool2 pr.1 + d.2)).getD 0))) := by
    unfold month_step
    rw [hds]
  have hopp : player_opponents (top_players pool2) ("A", (2800 : ℝ)) 5
      ((fun _ _ => (1/2 : ℝ)) "A") = some ((List.range 5).map (fun i =>
        (opponent_names (top_players pool2) ("A", (2800 : ℝ)).1).getD
          (categorical (norm_weights (top_players pool2) ("A", (2800 : ℝ)).1
            ("A", (2800 : ℝ)).2) ((fun _ _ => (1/2 : ℝ)) "A" i)) "")) := by
    unfold player_opponents
    exact select_opponents_isSome (hcand _ hmem)
  have h := C2_month_update 5 pool2 (fun _ _ => 1/2) (fun _ _ => 1/2)
    ("A", 2800) _ _ hnd hmem hstep hopp
  exact ⟨_, _, hstep, hopp, h.2.1, h.1⟩

/-- Claim C6: for an active player `pa` in a pool of at least two distinct-keyed
players, the sampling weight of every other pool member is `1/(|ra - rother| + 100)`
normalized by the total over the pool excluding `pa` (position-for-position over
the filtered pool), the normalized weights sum to exactly `1`, and sampling
succeeds with exactly `n = matchesPerMonth` opponents drawn from the pool excluding
`pa`, each draw made independently from its own uniform value (with replacement, so
repeats are possible). -/
theorem C6_opponent_weights (active : List (Player × ℝ)) (pa : Player × ℝ) (n : ℕ)
    (u : ℕ → ℝ)
    (hmem : pa ∈ active) (hnd : (active.map Prod.fst).Nodup)
    (hlen : 2 ≤ active.length) (hu : ∀ i, 0 ≤ u i ∧ u i < 1) :
    norm_weights active pa.1 pa.2
      = (rating_diffs active pa.1 pa.2).map
          (fun d => (1 / (d + 100))
            / ((rating_diffs active pa.1 pa.2).map (fun e => 1 / (e + 100))).sum) ∧
    (norm_weights active pa.1 pa.2).sum = 1 ∧
    ∃ opps, player_opponents active pa n u = some opps ∧ opps.length = n ∧
      ∀ o ∈ opps, o ∈ opponent_names active pa.1 := by
  have hne := opponent_names_ne_nil hmem hnd hlen
  refine ⟨?_, norm_weights_sum active pa.1 pa.2 hne, ?_⟩
  · simp only [norm_weights, raw_weights, List.map_map]
    rfl
  · have hsel := @select_opponents_isSome (opponent_names active pa.1)
      (norm_weights active pa.1 pa.2) n u hne
    exact ⟨_, hsel, select_opponents_length hsel,
      select_opponents_mem (norm_weights_sum active pa.1 pa.2 hne)
        (norm_weights_length active pa.1 pa.2) hu hsel⟩

/-- Claim C6 witness: a concrete three-player pool. -/
theorem C6_witness :
    ("A", (2800 : ℝ)) ∈ pool3 ∧ 2 ≤ pool3.length ∧
    (norm_weights pool3 "A" 2800).sum = 1 ∧
    ∃ opps, player_opponents pool3 ("A", 2800) 5 (fun _ => 1/2) = some opps ∧
      opps.length = 5 ∧ ∀ o ∈ opps, o ∈ opponent_names pool3 "A" := by
  have hmem : ("A", (2800 : ℝ)) ∈ pool3 := by
    unfold pool3
    exact List.mem_cons_self _ _
  have h := C6_opponent_weights pool3 ("A", 2800) 5 (fun _ => 1/2) hmem (by decide)
    (by norm_num [pool3]) (fun i => by norm_num)
  exact ⟨hmem, by norm_num [pool3], h.2.1, h.2.2⟩

/-- Claim C5 witness: concrete instantiations of the amended bounds. -/
theorem C5_witness :
    ((0 : ℝ) < 1 ∧ draw_probability 1 < 0.5) ∧
    ((0 : ℝ) ≤ 1 ∧ (1 : ℝ) < 2 ∧ draw_probability 2 < draw_probability 1) :=
  ⟨⟨by norm_num, C5_amended.2.1 1 (by norm_num)⟩,
    ⟨by norm_num, by norm_num, C5_amended.2.2.1 1 2 (by norm_num) (by norm_num)⟩⟩

/-- Claim C1 refuted (code bug): a player outside the top-20 active pool does not
have its rating carried forward — its cell in column `month_idx + 1` keeps the
`np.zeros` initialization, so its rating becomes `0`.  Concretely, in the
21-player snapshot `pool21` the lowest-rated player `P21` starts at `2801`, yet
after one month step its rating is `0` for every possible stream of random
draws. -/
theorem C1_inactive_player_zeroed :
    ("P21", (2801 : ℝ)) ∈ pool21 ∧ (2801 : ℝ) ≠ 0 ∧
    ∀ uc um : Player → ℕ → ℝ,
      Option.map (fun s2 => lookupRating s2 "P21") (month_step 5 pool21 uc um)
        = some 0 := by
  have hmem : ("P21", (2801 : ℝ)) ∈ pool21 := by
    unfold pool21
    exact List.mem_append_right _ (List.mem_cons_self _ _)
  refine ⟨hmem, by norm_num, ?_⟩
  intro uc um
  haveI : IsTrans (Player × ℝ) (fun p q => q.2 ≤ p.2) :=
    ⟨fun a b c hab hbc => le_trans hbc hab⟩
  have hsorted : List.Sorted (fun p q : Player × ℝ => q.2 ≤ p.2) pool21 :=
    List.chain'_iff_pairwise.mp (by norm_num [pool21, first20, List.chain'_cons])
  have htop : top_players pool21 = first20 := by
    unfold top_players
    rw [hsorted.insertionSort_eq]
    unfold pool21
    exact List.take_left' (by decide)
  have hnd21 : (pool21.map Prod.fst).Nodup := by decide
  have hnd20 : (first20.map Prod.fst).Nodup := by decide
  have hcand : ∀ pa ∈ first20, opponent_names first20 pa.1 ≠ [] :=
    fun pa hpa => opponent_names_ne_nil hpa hnd20 (by decide)
  obtain ⟨ds, hds⟩ := compute_deltas_isSome pool21 first20 5 uc um first20 hcand
  have hkeys : ds.map Prod.fst = first20.map Prod.fst := compute_deltas_keys hds
  have hstep : month_step 5 pool21 uc um = some (pool21.map (fun pr =>
      (pr.1, ((ds.find? (fun d => d.1 == pr.1)).map
        (fun d => lookupRating pool21 pr.1 + d.2)).getD 0))) := by
    unfold month_step
    rw [htop, hds]
  have hfind : ds.find? (fun d => d.1 == "P21") = none := by
    rw [List.find?_eq_none]
    intro x hx
    have hx1 : x.1 ∈ first20.map Prod.fst := by
      rw [← hkeys]
      exact List.mem_map_of_mem Prod.fst hx
    have hne : x.1 ≠ "P21" := by
      intro he
      rw [he] at hx1
      revert hx1
      decide
    simpa using hne
  rw [hstep, Option.map_some', lookupRating_map_key pool21 _ "P21",
    find?_key_of_mem hnd21 hmem]
  simp [hfind]

/-- `compute_deltas` is insensitive, at a fixed player key `p`, to the uniform
draws consumed by other players: given randomness streams that agree at `p`, both
runs fail together, and on success record the same delta for `p`. -/
lemma compute_deltas_find_congr {s active : List (Player × ℝ)} {n : ℕ}
    {uc um uc2 um2 : Player → ℕ → ℝ} {p : Player}
    (hc : uc p = uc2 p) (hm : um p = um2 p) :
    ∀ l : List (Player × ℝ),
      Option.map (fun ds => ds.find? (fun d => d.1 == p))
          (compute_deltas s active n uc um l)
        = Option.map (fun ds => ds.find? (fun d => d.1 == p))
          (compute_deltas s active n uc2 um2 l)
  | [] => rfl
  | pa :: rest => by
    by_cases hsel : (opponent_names active pa.1).isEmpty ∧ n ≠ 0
    · have h1 : player_opponents active pa n (uc pa.1) = none := by
        unfold player_opponents select_opponents
        rw [if_pos hsel]
      have h2 : player_opponents active pa n (uc2 pa.1) = none := by
        unfold player_opponents select_opponents
        rw [if_pos hsel]
      unfold compute_deltas
      rw [h1, h2]
    · have h1 : player_opponents active pa n (uc pa.1)
          = some ((List.range n).map (fun i => (opponent_names active pa.1).getD
            (categorical (norm_weights active pa.1 pa.2) (uc pa.1 i)) "")) := by
        unfold player_opponents select_opponents
        rw [if_neg hsel]
      have h2 : player_opponents active pa n (uc2 pa.1)
          = some ((List.range n).map (fun i => (opponent_names active pa.1).getD
            (categorical (norm_weights active pa.1 pa.2) (uc2 pa.1 i)) "")) := by
        unfold player_opponents select_opponents
        rw [if_neg hsel]
      have ih := @compute_deltas_find_congr s active n uc um uc2 um2 p hc hm rest
      unfold compute_deltas
      rw [h1, h2]
      dsimp only
      by_cases hp : pa.1 = p
      · subst hp
        cases hr1 : compute_deltas s active n uc um rest with
        | none =>
          rw [hr1] at ih
          cases hr2 : compute_deltas s active n uc2 um2 rest with
          | none => rfl
          | some ds2 => rw [hr2] at ih; simp at ih
        | some ds1 =>
          rw [hr1] at ih
          cases hr2 : compute_deltas s active n uc2 um2 rest with
          | none => rw [hr2] at ih; simp at ih
          | some ds2 =>
            rw [hr2] at ih
            simp only [Option.map_some'] at ih ⊢
            simp only [List.find?_cons, beq_self_eq_true]
            rw [hc, hm]
      · have hb : ¬ ((pa.1 == p) = true) := by simpa using hp
        cases hr1 : compute_deltas s active n uc um rest with
        | none =>
          rw [hr1] at ih
          cases hr2 : compute_deltas s active n uc2 um2 rest with
          | none => rfl
          | some ds2 => rw [hr2] at ih; simp at ih
        | some ds1 =>
          rw [hr1] at ih
          cases hr2 : compute_deltas s active n uc2 um2 rest with
          | none => rw [hr2] at ih; simp at ih
          | some ds2 =>
            rw [hr2] at ih
            simp only [Option.map_some'] at ih ⊢
            have hbf : (pa.1 == p) = false := by simpa using hp
            simp only [List.find?_cons, hbf]
            exact ih

/-- A player's next-month rating depends only on that player's own uniform draws:
the streams of every other player can change arbitrarily without affecting it. -/
lemma month_step_lookup_congr {n : ℕ} {s : List (Player × ℝ)}
    {uc um uc2 um2 : Player → ℕ → ℝ} {p : Player}
    (hc : uc p = uc2 p) (hm : um p = um2 p) :
    Option.map (fun s2 => lookupRating s2 p) (month_step n s uc um)
      = Option.map (fun s2 => lookupRating s2 p) (month_step n s uc2 um2) := by
  have h := @compute_deltas_find_congr s (top_players s) n uc um uc2 um2 p hc hm
    (top_players s)
  unfold month_step
  cases h1 : compute_deltas s (top_players s) n uc um (top_players s) with
  | none =>
    cases h2 : compute_deltas s (top_players s) n uc2 um2 (top_players s) with
    | none => rfl
    | some ds2 => rw [h1, h2] at h; simp at h
  | some ds1 =>
    cases h2 : compute_deltas s (top_players s) n uc2 um2 (top_players s) with
    | none => rw [h1, h2] at h; simp at h
    | some ds2 =>
      rw [h1, h2] at h
      simp only [Option.map_some', Option.some.injEq] at h
      simp only [Option.map_some']
      rw [lookupRating_map_key, lookupRating_map_key]
      cases hf : s.find? (fun pr => pr.1 == p) with
      | none => rfl
      | some pr0 =>
        have hp0 : pr0.1 = p := by simpa using List.find?_some hf
        simp only [Option.map_some', Option.getD_some]
        rw [hp0, h]

lemma cw_half (a : ℝ) : calculate_win_probability a a = 1/2 := by
  rw [cw_self]
  norm_num

lemma dp_zero : draw_probability 0 = 1/2 := by
  norm_num [draw_probability, Real.exp_zero]

/-- Between equally rated players, the uniform value `3/5` resolves to a win. -/
lemma sm_equal_win : simulate_match 2800 2800 (3/5) = 1 := by
  unfold simulate_match
  dsimp only
  have hd : draw_probability |(2800 : ℝ) - 2800| = 1/2 := by
    rw [show |(2800 : ℝ) - 2800| = 0 by norm_num, dp_zero]
  have hw : calculate_win_probability 2800 2800 = 1/2 := cw_half 2800
  rw [hd, hw, if_neg (by norm_num), if_pos (by norm_num)]
  norm_num

lemma pool2e_top : top_players pool2e = pool2e :=
  top_players_of_sorted (by norm_num [pool2e, List.sorted_cons]) (by norm_num [pool2e])

lemma pool2e_lookup_alice : lookupRating pool2e "Alice" = 2800 := rfl

lemma pool2e_lookup_bob : lookupRating pool2e "Bob" = 2800 := rfl

lemma pool2e_opp_alice : opponent_names pool2e "Alice" = ["Bob"] := rfl

lemma pool2e_opp_bob : opponent_names pool2e "Bob" = ["Alice"] := rfl

lemma pool2e_weights_alice : norm_weights pool2e "Alice" 2800 = [1] := by
  have hd : rating_diffs pool2e "Alice" 2800 = [0] := by
    rw [show rating_diffs pool2e "Alice" 2800 = [|(2800 : ℝ) - 2800|] from rfl]
    norm_num
  have hr : raw_weights pool2e "Alice" 2800 = [1/100] := by
    unfold raw_weights
    rw [hd]
    norm_num
  unfold norm_weights
  rw [hr]
  norm_num

lemma pool2e_weights_bob : norm_weights pool2e "Bob" 2800 = [1] := by
  have hd : rating_diffs pool2e "Bob" 2800 = [0] := by
    rw [show rating_diffs pool2e "Bob" 2800 = [|(2800 : ℝ) - 2800|] from rfl]
    norm_num
  have hr : raw_weights pool2e "Bob" 2800 = [1/100] := by
    unfold raw_weights
    rw [hd]
    norm_num
  unfold norm_weights
  rw [hr]
  norm_num

lemma cat_single : categorical [1] (1/2) = 0 := by
  unfold categorical
  rw [if_pos (by norm_num)]

lemma pool2e_sel_alice :
    player_opponents pool2e ("Alice", 2800) 5 (fun _ => 1/2)
      = some ["Bob", "Bob", "Bob", "Bob", "Bob"] := by
  unfold player_opponents
  rw [select_opponents_isSome
    (show opponent_names pool2e "Alice" ≠ [] by rw [pool2e_opp_alice]; simp)]
  simp only [pool2e_opp_alice, pool2e_weights_alice, cat_single]
  decide

lemma pool2e_sel_bob :
    player_opponents pool2e ("Bob", 2800) 5 (fun _ => 1/2)
      = some ["Alice", "Alice", "Alice", "Alice", "Alice"] := by
  unfold player_opponents
  rw [select_opponents_isSome
    (show opponent_names pool2e "Bob" ≠ [] by rw [pool2e_opp_bob]; simp)]
  simp only [pool2e_opp_bob, pool2e_weights_bob, cat_single]
  decide

lemma pool2e_mc_alice :
    monthly_change pool2e 2800 ["Bob", "Bob", "Bob", "Bob", "Bob"] (fun _ => 3/5)
      = 25 := by
  unfold monthly_change
  have hmd : match_delta pool2e 2800 "Bob" (3/5) = 5 := by
    unfold match_delta
    rw [pool2e_lookup_bob, sm_equal_win, cw_half]
    norm_num
  simp only [List.enum, List.enumFrom, List.map_cons, List.map_nil, hmd]
  norm_num

lemma pool2e_mc_bob :
    monthly_change pool2e 2800 ["Alice", "Alice", "Alice", "Alice", "Alice"]
      (fun _ => 3/5) = 25 := by
  unfold monthly_change
  have hmd : match_delta pool2e 2800 "Alice" (3/5) = 5 := by
    unfold match_delta
    rw [pool2e_lookup_alice, sm_equal_win, cw_half]
    norm_num
  simp only [List.enum, List.enumFrom, List.map_cons, List.map_nil, hmd]
  norm_num

lemma pool2e_deltas_all :
    compute_deltas pool2e pool2e 5 (fun _ _ => 1/2) (fun _ _ => 3/5)
      (("Alice", (2800 : ℝ)) :: [("Bob", (2800 : ℝ))])
      = some [("Alice", 25), ("Bob", 25)] := by
  simp only [compute_deltas, pool2e_sel_alice, pool2e_sel_bob, pool2e_mc_alice,
    pool2e_mc_bob]

lemma pool2e_step :
    month_step 5 pool2e (fun _ _ => 1/2) (fun _ _ => 3/5)
      = some [("Alice", 2825), ("Bob", 2825)] := by
  have hfA : ([("Alice", (25 : ℝ)), ("Bob", 25)]).find? (fun d => d.1 == "Alice")
      = some ("Alice", 25) := List.find?_cons_of_pos _ (by decide)
  have hfB : ([("Alice", (25 : ℝ)), ("Bob", 25)]).find? (fun d => d.1 == "Bob")
      = some ("Bob", 25) := by
    rw [List.find?_cons_of_neg _ (by decide), List.find?_cons_of_pos _ (by decide)]
  have hlA : lookupRating [("Alice", (2800 : ℝ)), ("Bob", (2800 : ℝ))] "Alice"
      = 2800 := rfl
  have hlB : lookupRating [("Alice", (2800 : ℝ)), ("Bob", (2800 : ℝ))] "Bob"
      = 2800 := rfl
  unfold month_step
  rw [show compute_deltas pool2e (top_players pool2e) 5 (fun _ _ => 1/2)
      (fun _ _ => 3/5) (top_players pool2e) = some [("Alice", (25 : ℝ)), ("Bob", 25)]
    from by rw [pool2e_top]; exact pool2e_deltas_all]
  simp only [show pool2e = [("Alice", (2800 : ℝ)), ("Bob", (2800 : ℝ))] from rfl,
    List.map_cons, List.map_nil, hfA, hfB, Option.map_some', Option.getD_some,
    hlA, hlB]
  norm_num

/-- Claim C10: match updates are one-sided.  (a) A player's next-month rating is a
function of that player's own uniform draws alone — changing every other player's
match outcomes and opponent draws cannot affect it, so being sampled as an opponent
contributes nothing.  (b) Consequently the total rating mass is not conserved: with
two equally rated players (2800 each) and draws making every sampled match a win
for the sampling player, both players gain 25 points in the same month, moving the
total from 5600 to 5650. -/
theorem C10_one_sided_updates :
    (∀ (s : List (Player × ℝ)) (n : ℕ) (uc um uc2 um2 : Player → ℕ → ℝ) (p : Player),
      uc p = uc2 p → um p = um2 p →
      Option.map (fun s2 => lookupRating s2 p) (month_step n s uc um)
        = Option.map (fun s2 => lookupRating s2 p) (month_step n s uc2 um2)) ∧
    month_step 5 pool2e (fun _ _ => 1/2) (fun _ _ => 3/5)
      = some [("Alice", 2825), ("Bob", 2825)] ∧
    (pool2e.map Prod.snd).sum = 5600 ∧
    (([("Alice", (2825 : ℝ)), ("Bob", 2825)]).map Prod.snd).sum = 5650 ∧
    (5650 : ℝ) ≠ 5600 := by
  refine ⟨fun s n uc um uc2 um2 p hc hm => month_step_lookup_congr hc hm,
    pool2e_step, by norm_num [pool2e], by norm_num, by norm_num⟩

/-- Claim C10 witness: the non-interference part applied at a concrete pool,
player and pair of (equal) randomness streams. -/
theorem C10_witness :
    Option.map (fun s2 => lookupRating s2 "Alice")
        (month_step 5 pool2e (fun _ _ => 1/2) (fun _ _ => 3/5))
      = Option.map (fun s2 => lookupRating s2 "Alice")
        (month_step 5 pool2e (fun _ _ => 1/2) (fun _ _ => 3/5)) :=
  C10_one_sided_updates.1 pool2e 5 _ _ _ _ "Alice" rfl rfl

end

end Elo
